import Mathlib

/-!
Shallow embedding of the Aurora audio-engine core (src/audio/input.py and
src/audio/analysis.py): the visualization ring buffer, the transport
operations `load_file` and `seek_seconds`, the hardware audio callback, and
the spectral `Analyzer`.  Engine samples (float32 in the source) are
modelled as exact rationals; the analyzer pipeline (window, FFT, log) is
modelled over the reals and complexes.
-/

namespace Aurora

/-- Numpy in-place slice assignment `data[start : start + vals.length] = vals`
(every call site in the callback guarantees `start + vals.length ≤ data.length`). -/
def setSlice (data : List ℚ) (start : ℕ) (vals : List ℚ) : List ℚ :=
  data.take start ++ vals ++ data.drop (start + vals.length)

/-- The visualization ring buffer: the `_rb_size`, `_ring`, `_rb_write`
attributes initialised in `AudioEngine.__init__` (src/audio/input.py). -/
structure Ring where
  size : ℕ
  data : List ℚ
  write_cursor : ℕ
deriving DecidableEq

/-- `self._ring.fill(0.0); self._rb_write = 0`, the ring reset performed by
`load_file` and `seek_seconds` (the capacity is unchanged). -/
def Ring.reset (s : ℕ) : Ring := ⟨s, List.replicate s 0, 0⟩

/-- The ring-buffer write performed in `_audio_callback`:
`idx = _rb_write % _rb_size; n = min(frames, _rb_size)`; one contiguous copy
when `idx + n <= _rb_size`, otherwise a two-part wrapped copy; finally
`_rb_write = (_rb_write + n) % (1 << 30)`.  Here `mono` is `mono_vis`, whose
length is the callback's `frames`. -/
def Ring.write (r : Ring) (mono : List ℚ) : Ring :=
  let idx := r.write_cursor % r.size
  let n := min mono.length r.size
  if idx + n ≤ r.size then
    ⟨r.size, setSlice r.data idx (mono.take n), (r.write_cursor + n) % 2 ^ 30⟩
  else
    let first := r.size - idx
    let d1 := setSlice r.data idx (mono.take first)
    let d2 := setSlice d1 0 ((mono.take n).drop first)
    ⟨r.size, d2, (r.write_cursor + n) % 2 ^ 30⟩

/-- The span copy of the ring read in `AudioEngine.get_frame` (the part under
the lock): `end = _rb_write % _rb_size; start = (end - n) % _rb_size`; one
contiguous span when `start < end`, otherwise the two wrapped spans. -/
def Ring.read_span (r : Ring) (n : ℕ) : List ℚ :=
  let endPos := r.write_cursor % r.size
  let start := (((endPos : ℤ) - (n : ℤ)) % (r.size : ℤ)).toNat
  if start < endPos
    then (r.data.drop start).take (endPos - start)
    else r.data.drop start ++ r.data.take endPos

/-- The ring read in `AudioEngine.get_frame`: the locked span copy followed
by the size fix-up branch that left-pads with zeros when the copied span is
not exactly `n` long. -/
def Ring.read_last (r : Ring) (n : ℕ) : List ℚ :=
  let samples := r.read_span n
  if samples.length = n then samples
  else
    let ncopy := min samples.length n
    List.replicate (n - ncopy) 0 ++ samples.drop (samples.length - ncopy)

/-- Folding a sequence of callback pushes into the ring. -/
def writeSeq (r : Ring) (blocks : List (List ℚ)) : Ring :=
  blocks.foldl Ring.write r

/-- The decoded audio file as seen by the engine: a `soundfile.SoundFile`
(or the audioread-decoded temp WAV).  `frames` is the PCM data, one row per
frame; `pos` is the read head (`tell()`); `isOpen` records whether `close()`
has been called on the handle. -/
structure AudioSource where
  samplerate : ℕ
  channels : ℕ
  frames : List (List ℚ)
  pos : ℕ
  isOpen : Bool
deriving DecidableEq

/-- `sf.read(n, dtype='float32', always_2d=True)`: returns up to `n` frames
from the current position and advances the position by the number returned
(zero frames at end of stream). -/
def AudioSource.read (s : AudioSource) (n : ℕ) : List (List ℚ) × AudioSource :=
  let out := (s.frames.drop s.pos).take n
  (out, { s with pos := s.pos + out.length })

/-- `sf.seek(frame)`: absolute positioning. -/
def AudioSource.seek (s : AudioSource) (frame : ℕ) : AudioSource :=
  { s with pos := frame }

/-- `sf.close()`: the handle stays referenced but is no longer open. -/
def AudioSource.close (s : AudioSource) : AudioSource :=
  { s with isOpen := false }

/-- The engine state relevant to transport, the ring buffer and the callback
(`AudioEngine` in src/audio/input.py).  The `Analyzer` state is modelled
separately (see `Analyzer` below); device handles are external. -/
structure AudioEngine where
  sample_rate : ℕ
  block_size : ℕ
  volume : ℚ
  current_audio_path : Option String
  sf : Option AudioSource
  sf_sr : Option ℕ
  playing : Bool
  eof : Bool
  tmp_wav_path : Option String
  ring : Ring
  stream_sr : ℕ
deriving DecidableEq

/-- Error surfaced by a failed `load_file` (the raised exception). -/
inductive LoadError
  | decodeFailure
deriving DecidableEq

/-- `AudioEngine.load_file(path)`.  The construction of the new source is
external decoding (native `soundfile.SoundFile(path)`, falling back to
audioread); its outcome is passed as `decoded` (`none` = both attempts
failed and the exception propagates to the caller).  Python mutates the
engine object in place, so the returned pair is the object state at the
point control leaves the method together with the surfaced error, if any.
Note the method FIRST closes the previous `_sf` handle, clears the temp-WAV
path and overwrites `current_audio_path`, and only then attempts the open;
on success it stores the source, resets `_eof`/`_playing`, seeks to 0,
reopens the stream at the file's samplerate and zeroes the ring buffer. -/
def AudioEngine.load_file (e : AudioEngine) (path : String)
    (decoded : Option AudioSource) : AudioEngine × Option LoadError :=
  let e1 : AudioEngine :=
    { e with sf := e.sf.map AudioSource.close,
             tmp_wav_path := none,
             current_audio_path := some path }
  match decoded with
  | none => (e1, some LoadError.decodeFailure)
  | some src =>
    let src := AudioSource.seek src 0
    ({ e1 with sf := some src,
               sf_sr := some src.samplerate,
               eof := false,
               playing := false,
               sample_rate := src.samplerate,
               stream_sr := src.samplerate,
               ring := Ring.reset e1.ring.size }, none)

/-- Python `int()` on an exact value: truncation toward zero. -/
def ratTrunc (q : ℚ) : ℤ := if q < 0 then ⌈q⌉ else ⌊q⌋

/-- `AudioEngine.seek_seconds(seconds)`: no-op when no file is loaded; else
`frame = max(0, int(seconds * _sf_sr)); frame = min(frame, len(_sf))`,
`_sf.seek(frame)`, `_eof = False`, and the ring buffer is zeroed. -/
def AudioEngine.seek_seconds (e : AudioEngine) (t : ℚ) : AudioEngine :=
  match e.sf with
  | none => e
  | some s =>
    let sr : ℕ := e.sf_sr.getD 0
    let frame : ℤ := max 0 (ratTrunc (t * (sr : ℚ)))
    let frame : ℤ := min frame (s.frames.length : ℤ)
    { e with sf := some (AudioSource.seek s frame.toNat),
             eof := false,
             ring := Ring.reset e.ring.size }

/-- `AudioEngine.play()`: only effective with a loaded file. -/
def AudioEngine.play (e : AudioEngine) : AudioEngine :=
  if e.sf.isSome then { e with playing := true } else e

/-- `AudioEngine.pause()`. -/
def AudioEngine.pause (e : AudioEngine) : AudioEngine :=
  { e with playing := false }

/-- The sample-extraction half of `AudioEngine.get_frame` (the part under
the lock plus the size fix-up); the returned block is then handed to
`Analyzer.compute`. -/
def AudioEngine.get_frame_samples (e : AudioEngine) : List ℚ :=
  Ring.read_last e.ring e.block_size

/-- The callback's source-frame sizing rule: `frames` when the rates match,
else `max(1, ceil(frames * sr_src / sr_stream))`. -/
def need_src (sr_stream sr_src frames : ℕ) : ℕ :=
  if sr_stream = sr_src then frames
  else max 1 (Int.toNat ⌈((frames * sr_src : ℕ) : ℚ) / (sr_stream : ℚ)⌉)

/-- Channel mapping in the callback: trim to the first `ch` channels when the
source has at least `ch`, otherwise tile the source channels and trim. -/
def channelMap (ch : ℕ) (raw : List (List ℚ)) : List (List ℚ) :=
  let src_ch := (raw.headD []).length
  if ch ≤ src_ch then raw.map (List.take ch)
  else
    let reps := (ch + src_ch - 1) / src_ch
    raw.map (fun row => ((List.replicate reps row).flatten).take ch)

/-- `np.interp` on the integer grid `0, 1, ..., ys.length - 1`. -/
def interpGrid (ys : List ℚ) (p : ℚ) : ℚ :=
  if p ≤ 0 then ys.headD 0
  else if ((ys.length : ℚ) - 1) ≤ p then ys.getLastD 0
  else
    let k := (⌊p⌋).toNat
    let y0 := ys.getD k 0
    let y1 := ys.getD (k + 1) 0
    y0 + (p - (k : ℚ)) * (y1 - y0)

/-- The resampling stage of the callback: pass-through when the stream and
source rates agree; otherwise per-channel linear interpolation from
`n_src` points onto `frames` evenly spaced query points (and silence when
`n_src <= 1`, the buffer keeping its zero initialisation). -/
def resampleStage (sr_stream sr_src frames ch : ℕ) (src : List (List ℚ)) :
    List (List ℚ) :=
  if sr_stream = sr_src then src
  else if 1 < src.length then
    (List.range frames).map (fun i =>
      let p : ℚ := if frames ≤ 1 then 0
        else ((i : ℚ) * ((src.length : ℚ) - 1)) / ((frames : ℚ) - 1)
      (List.range ch).map (fun c => interpGrid (src.map (fun row => row.getD c 0)) p))
  else List.replicate frames (List.replicate ch 0)

/-- Pad with zero rows or trim so the block is exactly `frames` rows. -/
def padTrim (frames ch : ℕ) (stereo : List (List ℚ)) : List (List ℚ) :=
  if stereo.length < frames then
    stereo ++ List.replicate (frames - stereo.length) (List.replicate ch 0)
  else stereo.take frames

/-- `stereo *= vol` when `vol != 1.0`. -/
def applyVolume (vol : ℚ) (xs : List (List ℚ)) : List (List ℚ) :=
  if vol = 1 then xs else xs.map (fun row => row.map (fun v => v * vol))

/-- `stereo.mean(axis=1)`: the mono downmix pushed into the ring. -/
def monoMean (xs : List (List ℚ)) : List ℚ :=
  xs.map (fun row => row.sum / (row.length : ℚ))

/-- Tail of the callback: apply volume, downmix to mono, push into the ring,
and hand the (volume-scaled) block to the device buffer. -/
def callbackFinish (e : AudioEngine) (stereo : List (List ℚ)) :
    AudioEngine × List (List ℚ) :=
  let out := applyVolume e.volume stereo
  let mono := monoMean out
  ({ e with ring := Ring.write e.ring mono }, out)

/-- `AudioEngine._audio_callback(outdata, frames, ...)` with `ch` the channel
count of the device buffer.  Not playing or no source: silence.  Playing:
read `need_src` frames; zero frames read sets `_eof = True`,
`_playing = False` and leaves the pre-initialised silence; otherwise
channel-map, resample (identity when the rates agree), pad/trim to `frames`.
Either way the tail applies volume, pushes the mono downmix into the ring
and writes the block to the device. -/
def AudioEngine.audioCallback (e : AudioEngine) (frames ch : ℕ) :
    AudioEngine × List (List ℚ) :=
  let sr_stream := e.stream_sr
  let sr_src := e.sf_sr.getD sr_stream
  match e.sf, e.playing with
  | some src, true =>
    let need := need_src sr_stream sr_src frames
    let raw := (src.read need).1
    let src' := (src.read need).2
    if raw = [] then
      callbackFinish { e with sf := some src', eof := true, playing := false }
        (List.replicate frames (List.replicate ch 0))
    else
      let mapped := channelMap ch raw
      let resampled := resampleStage sr_stream sr_src frames ch mapped
      let stereo := padTrim frames ch resampled
      callbackFinish { e with sf := some src' } stereo
  | _, _ => callbackFinish e (List.replicate frames (List.replicate ch 0))

/-! ## The spectral analyzer (src/audio/analysis.py) -/

/-- Analyzer state: Hann window, previous magnitude spectrum, smoothed flux
scalar, smoothing constant `alpha = 0.9`, hop `fft_size // 2`, and the
sliding input buffer of length `fft_size`. -/
structure Analyzer where
  sample_rate : ℕ
  fft_size : ℕ
  window : List ℝ
  prev_mag : List ℝ
  flux_smooth : ℝ
  alpha : ℝ
  hop : ℕ
  buffer : List ℝ

/-- `scipy.signal.get_window('hann', N, fftbins=True)`:
`w[k] = 0.5 - 0.5 * cos(2 pi k / N)`. -/
noncomputable def hannWindow (N : ℕ) : List ℝ :=
  (List.range N).map (fun k => 1 / 2 - 1 / 2 * Real.cos (2 * Real.pi * k / N))

/-- `Analyzer.__init__(sample_rate, fft_size)`. -/
noncomputable def Analyzer.init (sr N : ℕ) : Analyzer :=
  { sample_rate := sr
    fft_size := N
    window := hannWindow N
    prev_mag := List.replicate (N / 2 + 1) 0
    flux_smooth := 0
    alpha := 9 / 10
    hop := N / 2
    buffer := List.replicate N 0 }

/-- Coefficient `j` of `np.fft.rfft(w, n=N)` for a length-`N` real input:
`sum_k w[k] * exp(-2 pi i j k / N)`. -/
noncomputable def dftCoef (w : List ℝ) (N j : ℕ) : ℂ :=
  ((List.range N).map (fun k =>
    ((w.getD k 0 : ℝ) : ℂ)
      * Complex.exp (-(2 * (Real.pi : ℂ) * Complex.I * (j : ℂ) * (k : ℂ) / (N : ℂ))))).sum

/-- `np.abs(np.fft.rfft(w, n=N))`: the `N/2 + 1` magnitudes. -/
noncomputable def rfftMag (w : List ℝ) (N : ℕ) : List ℝ :=
  (List.range (N / 2 + 1)).map (fun j => Complex.abs (dftCoef w N j))

/-- The buffer slide at the top of `Analyzer.compute`: when `len(x) >= hop`,
shift left by `hop` and append the last `hop` samples of `x`; otherwise roll
left by `len(x)` and append all of `x`.  (On an empty `x` with `0 < hop` the
Python `buffer[-0:] = x` would raise a broadcast error; every caller passes
at least one sample, and the model is total, agreeing with the source on all
nonempty blocks.) -/
def slideBuffer (hop : ℕ) (buffer x : List ℝ) : List ℝ :=
  if hop ≤ x.length then buffer.drop hop ++ x.drop (x.length - hop)
  else buffer.drop x.length ++ x

/-- `Analyzer.compute(x)`: slide the buffer, window, take the real-FFT
magnitude, accumulate the positive spectral difference into the flux,
smooth it, store the magnitude, and return `(log1p(mag), flux_smooth)`
together with the new state. -/
noncomputable def Analyzer.compute (a : Analyzer) (x : List ℝ) :
    Analyzer × (List ℝ × ℝ) :=
  let buffer := slideBuffer a.hop a.buffer x
  let w := List.zipWith (· * ·) buffer a.window
  let mag := rfftMag w a.fft_size
  let diff := List.zipWith (fun m p => max 0 (m - p)) mag a.prev_mag
  let flux := diff.sum / (mag.length : ℝ)
  let fs := a.alpha * a.flux_smooth + (1 - a.alpha) * flux
  let spec := mag.map (fun m => Real.log (1 + m))
  ({ a with buffer := buffer, prev_mag := mag, flux_smooth := fs }, (spec, fs))

/-- Iterating `Analyzer.compute` over a sequence of input blocks. -/
noncomputable def runCompute (a : Analyzer) (blocks : List (List ℝ)) : Analyzer :=
  blocks.foldl (fun a x => (Analyzer.compute a x).1) a

/-- A concrete open two-channel source used by witnesses. -/
def srcOpen : AudioSource := ⟨48000, 2, [[1, 1], [2, 2]], 0, true⟩

/-- A concrete engine with `srcOpen` loaded, used by witnesses. -/
def engLoaded : AudioEngine :=
  { sample_rate := 48000, block_size := 2, volume := 1,
    current_audio_path := none, sf := some srcOpen, sf_sr := some 48000,
    playing := true, eof := false, tmp_wav_path := none,
    ring := Ring.reset 8192, stream_sr := 48000 }

/-- A path literal used by witnesses. -/
def pathNew : String := "new.mp3"

/-- A concrete source already read to its end, and an engine playing it,
used by the end-of-stream witness. -/
def srcDone : AudioSource := ⟨48000, 2, [[1, 1]], 1, true⟩

/-- Engine playing `srcDone`, used by the end-of-stream witness. -/
def engEof : AudioEngine :=
  { sample_rate := 48000, block_size := 2, volume := 1,
    current_audio_path := none, sf := some srcDone, sf_sr := some 48000,
    playing := true, eof := false, tmp_wav_path := none,
    ring := Ring.reset 8192, stream_sr := 48000 }

/-- A concrete engine whose ring holds one pushed sample (block size 2),
used by the ring-read witness. -/
def engRB : AudioEngine :=
  { sample_rate := 48000, block_size := 2, volume := 1,
    current_audio_path := none, sf := none, sf_sr := none,
    playing := false, eof := false, tmp_wav_path := none,
    ring := writeSeq (Ring.reset (max (2 * 16) 8192)) [[(5 : ℚ)]],
    stream_sr := 48000 }

/-! ## Helper lemmas -/

theorem setSlice_length {data vals : List ℚ} {start : ℕ}
    (h : start + vals.length ≤ data.length) :
    (setSlice data start vals).length = data.length := by
  simp only [setSlice, List.length_append, List.length_take, List.length_drop]
  omega

theorem Ring.write_size (r : Ring) (mono : List ℚ) :
    (Ring.write r mono).size = r.size := by
  simp only [Ring.write]
  split <;> rfl

theorem Ring.write_cursor_spec (r : Ring) (mono : List ℚ) :
    (Ring.write r mono).write_cursor
      = (r.write_cursor + min mono.length r.size) % 2 ^ 30 := by
  simp only [Ring.write]
  split <;> rfl

theorem Ring.write_data_length (r : Ring) (mono : List ℚ)
    (hs : 0 < r.size) (hd : r.data.length = r.size) :
    (Ring.write r mono).data.length = r.size := by
  have hidx : r.write_cursor % r.size < r.size := Nat.mod_lt _ hs
  simp only [Ring.write]
  split
  case isTrue h =>
    simp only
    rw [setSlice_length (by
      simp only [List.length_take]
      omega)]
    exact hd
  case isFalse h =>
    simp only
    rw [setSlice_length, setSlice_length]
    · exact hd
    · simp only [List.length_take]
      omega
    · rw [setSlice_length (by simp only [List.length_take]; omega)]
      simp only [List.length_drop, List.length_take]
      omega

theorem emod_toNat_sub_of_le {e n s : ℕ} (hne : n ≤ e) (hes : e < s) :
    (((e : ℤ) - (n : ℤ)) % (s : ℤ)).toNat = e - n := by
  rw [Int.emod_eq_of_lt (by omega) (by omega)]
  omega

theorem emod_toNat_sub_of_gt {e n s : ℕ} (hen : e < n) (hns : n < s) :
    (((e : ℤ) - (n : ℤ)) % (s : ℤ)).toNat = e + s - n := by
  have h : ((e : ℤ) - (n : ℤ)) = ((e : ℤ) + (s : ℤ) - (n : ℤ)) + (s : ℤ) * (-1) := by
    ring
  rw [h, Int.add_mul_emod_self_left, Int.emod_eq_of_lt (by omega) (by omega)]
  omega

/-- The contiguous-copy branch of the ring write, as a rewrite rule. -/
theorem Ring.write_fit (r : Ring) (b : List ℚ)
    (h : r.write_cursor % r.size + min b.length r.size ≤ r.size) :
    Ring.write r b = ⟨r.size,
      setSlice r.data (r.write_cursor % r.size) (b.take (min b.length r.size)),
      (r.write_cursor + min b.length r.size) % 2 ^ 30⟩ := by
  simp only [Ring.write]
  rw [if_pos h]

theorem Ring.read_last_reset (s n : ℕ) (h1 : 1 ≤ n) (h2 : n < s) :
    Ring.read_last (Ring.reset s) n = List.replicate n 0 := by
  have hmod : ((-(n : ℤ)) % (s : ℤ)).toNat = s - n := by
    have h := emod_toNat_sub_of_gt (e := 0) (n := n) (s := s) (by omega) h2
    simpa using h
  have h3 : s - (s - n) = n := by omega
  have hspan : Ring.read_span (Ring.reset s) n = List.replicate n 0 := by
    simp only [Ring.read_span, Ring.reset, Nat.zero_mod, Nat.cast_zero, zero_sub,
      hmod, Nat.not_lt_zero, if_false, List.drop_replicate, List.take_replicate,
      Nat.min_zero, Nat.zero_min, List.replicate_zero, List.append_nil, h3]
  simp only [Ring.read_last, hspan, List.length_replicate, if_true]

theorem Ring.write_no_wrap (s : ℕ) (w b : List ℚ) (hs : 0 < s)
    (hb : w.length + b.length ≤ s) (h30 : w.length + b.length < 2 ^ 30) :
    Ring.write ⟨s, w ++ List.replicate (s - w.length) 0, w.length⟩ b
      = ⟨s, (w ++ b) ++ List.replicate (s - (w.length + b.length)) 0,
           w.length + b.length⟩ := by
  have hmin : min b.length s = b.length := by omega
  by_cases hw : w.length < s
  · have hidx : w.length % s = w.length := Nat.mod_eq_of_lt hw
    rw [Ring.write_fit _ _ (by
      show w.length % s + min b.length s ≤ s
      rw [hidx, hmin]; omega)]
    show (⟨s, setSlice (w ++ List.replicate (s - w.length) 0) (w.length % s)
        (b.take (min b.length s)), (w.length + min b.length s) % 2 ^ 30⟩ : Ring) = _
    rw [hidx, hmin, List.take_length, Nat.mod_eq_of_lt h30]
    unfold setSlice
    rw [List.take_left, List.drop_append, List.drop_replicate, Nat.sub_sub]
  · have hw' : w.length = s := by omega
    have hb0 : b = [] := List.length_eq_zero.mp (by omega)
    subst hb0
    have h30' : w.length < 2 ^ 30 := by simpa using h30
    rw [Ring.write_fit _ _ (by
      show w.length % s + min ([] : List ℚ).length s ≤ s
      rw [hw', Nat.mod_self]; simp)]
    show (⟨s, setSlice (w ++ List.replicate (s - w.length) 0) (w.length % s)
        (([] : List ℚ).take (min ([] : List ℚ).length s)),
        (w.length + min ([] : List ℚ).length s) % 2 ^ 30⟩ : Ring) = _
    have h30s : s < 2 ^ 30 := by omega
    simp only [List.length_nil, Nat.zero_min, Nat.add_zero, List.take_nil,
      hw', Nat.mod_self, Nat.sub_self, List.replicate_zero, List.append_nil,
      setSlice, List.take_zero, List.drop_zero, List.nil_append]
    rw [Nat.mod_eq_of_lt h30s]

theorem writeSeq_size (r : Ring) (blocks : List (List ℚ)) :
    (writeSeq r blocks).size = r.size := by
  induction blocks generalizing r with
  | nil => rfl
  | cons b bs ih =>
    simp only [writeSeq, List.foldl_cons] at *
    rw [ih, Ring.write_size]

theorem writeSeq_data_length (r : Ring) (blocks : List (List ℚ))
    (hs : 0 < r.size) (hd : r.data.length = r.size) :
    (writeSeq r blocks).data.length = r.size := by
  induction blocks generalizing r with
  | nil => exact hd
  | cons b bs ih =>
    simp only [writeSeq, List.foldl_cons] at *
    have h2 := Ring.write_size r b
    have h1 := Ring.write_data_length r b hs hd
    have h3 := ih (Ring.write r b) (by rw [h2]; exact hs) (by rw [h2]; exact h1)
    rw [h3, h2]

theorem writeSeq_no_wrap (blocks : List (List ℚ)) (s : ℕ) (w : List ℚ)
    (hs : 0 < s)
    (hb : w.length + (blocks.map List.length).sum ≤ s)
    (h30 : w.length + (blocks.map List.length).sum < 2 ^ 30) :
    writeSeq ⟨s, w ++ List.replicate (s - w.length) 0, w.length⟩ blocks
      = ⟨s, (w ++ blocks.flatten)
             ++ List.replicate (s - (w.length + (blocks.map List.length).sum)) 0,
           w.length + (blocks.map List.length).sum⟩ := by
  induction blocks generalizing w with
  | nil => simp [writeSeq]
  | cons b bs ih =>
    simp only [List.map_cons, List.sum_cons] at hb h30
    simp only [writeSeq, List.foldl_cons]
    rw [Ring.write_no_wrap s w b hs (by omega) (by omega)]
    have hlen : w.length + b.length = (w ++ b).length := (List.length_append w b).symm
    rw [hlen]
    have h := ih (w ++ b) (by rw [← hlen]; omega) (by rw [← hlen]; omega)
    simp only [writeSeq] at h
    rw [h]
    simp only [List.length_append, List.flatten_cons, List.map_cons,
      List.sum_cons, ← List.append_assoc, Nat.add_assoc]

theorem Ring.read_span_length (r : Ring) (n : ℕ)
    (h1 : 1 ≤ n) (h2 : n < r.size) (hd : r.data.length = r.size) :
    (Ring.read_span r n).length = n := by
  have hs : 0 < r.size := by omega
  have hend : r.write_cursor % r.size < r.size := Nat.mod_lt _ hs
  by_cases hc : n ≤ r.write_cursor % r.size
  · have hstart := emod_toNat_sub_of_le hc hend
    simp only [Ring.read_span, hstart]
    rw [if_pos (by omega)]
    simp only [List.length_take, List.length_drop, hd]
    omega
  · have hgt : r.write_cursor % r.size < n := by omega
    have hstart := emod_toNat_sub_of_gt hgt h2
    simp only [Ring.read_span, hstart]
    rw [if_neg (by omega)]
    simp only [List.length_append, List.length_take, List.length_drop, hd]
    omega

theorem Ring.read_last_eq_span (r : Ring) (n : ℕ)
    (h1 : 1 ≤ n) (h2 : n < r.size) (hd : r.data.length = r.size) :
    Ring.read_last r n = Ring.read_span r n := by
  simp only [Ring.read_last]
  rw [if_pos (Ring.read_span_length r n h1 h2 hd)]

theorem Ring.read_last_length (r : Ring) (n : ℕ)
    (h1 : 1 ≤ n) (h2 : n < r.size) (hd : r.data.length = r.size) :
    (Ring.read_last r n).length = n := by
  rw [Ring.read_last_eq_span r n h1 h2 hd]
  exact Ring.read_span_length r n h1 h2 hd

theorem block_size_lt_cap (bs : ℕ) (h : 1 ≤ bs) : bs < max (bs * 16) 8192 := by
  rcases Nat.lt_or_ge bs 8192 with h8 | h8
  · exact lt_of_lt_of_le h8 (le_max_right _ _)
  · have h16 : bs < bs * 16 := by omega
    exact lt_of_lt_of_le h16 (le_max_left _ _)

theorem need_src_self (sr f : ℕ) : need_src sr sr f = f := by
  simp [need_src]

theorem applyVolume_silence (v : ℚ) (f c : ℕ) :
    applyVolume v (List.replicate f (List.replicate c 0))
      = List.replicate f (List.replicate c 0) := by
  unfold applyVolume
  split
  · rfl
  · simp

/-! ## Claim theorems -/

/-- C9 (amended): after a callback push of a mono block, the stored ring
write cursor is the old cursor plus `min(frames, C)` reduced modulo `2^30`
(the `(1 << 30)` in the source), not modulo the capacity `C`; ring indices
are later derived from it as `cursor % C`. -/
theorem ring_write_cursor_advances_mod_2pow30 (r : Ring) (mono : List ℚ) :
    (Ring.write r mono).write_cursor
      = (r.write_cursor + min mono.length r.size) % 2 ^ 30 :=
  Ring.write_cursor_spec r mono

/-- C9 counterexample: with capacity `C = max(block_size * 16, 8192) = 8192`
(any `block_size ≤ 512`), after 8000 samples have been pushed the cursor is
8000; pushing a further 1024 samples stores cursor 9024, whereas reduction
modulo the capacity would give `(8000 + 1024) % 8192 = 832`.  So the stored
write cursor is NOT `old + n` reduced modulo `C`. -/
theorem write_cursor_not_mod_capacity_cex :
    (Ring.write (Ring.reset 8192) (List.replicate 8000 0)).write_cursor = 8000
    ∧ (Ring.write (Ring.write (Ring.reset 8192) (List.replicate 8000 0))
        (List.replicate 1024 0)).write_cursor = 9024
    ∧ (8000 + 1024) % 8192 ≠ 9024 := by
  have h1 : (Ring.write (Ring.reset 8192)
      (List.replicate 8000 0)).write_cursor = 8000 := by
    rw [Ring.write_cursor_spec]
    norm_num [Ring.reset]
  have hsz : (Ring.write (Ring.reset 8192)
      (List.replicate 8000 0)).size = 8192 := by
    rw [Ring.write_size]
    rfl
  have h2 : (Ring.write (Ring.write (Ring.reset 8192) (List.replicate 8000 0))
      (List.replicate 1024 0)).write_cursor = 9024 := by
    rw [Ring.write_cursor_spec, h1, hsz]
    norm_num
  exact ⟨h1, h2, by decide⟩

/-- C1 (amended): when both decode attempts fail, `load_file` surfaces the
failure to the caller and the `playing`/`eof` flags keep their prior values,
but the engine does NOT remain on an open previous source: the previous
source has already been closed (the engine keeps a reference to the closed
handle) and `current_audio_path` already points at the new path. -/
theorem load_file_failure_surfaced_state (e : AudioEngine) (p : String) :
    (e.load_file p none).2 = some LoadError.decodeFailure
    ∧ (e.load_file p none).1.playing = e.playing
    ∧ (e.load_file p none).1.eof = e.eof
    ∧ (e.load_file p none).1.sf = e.sf.map AudioSource.close
    ∧ (e.load_file p none).1.current_audio_path = some p :=
  ⟨rfl, rfl, rfl, rfl, rfl⟩

/-- C1 counterexample: a concrete engine holding an open source; after a
failed `load_file` the failure is surfaced, but the previously loaded source
is no longer open (it was closed before the open attempt), contradicting the
claim that the engine state remains on the (still open) previous source. -/
theorem load_file_failure_prev_source_closed_cex :
    engLoaded.sf.map AudioSource.isOpen = some true
    ∧ (engLoaded.load_file pathNew none).2 = some LoadError.decodeFailure
    ∧ (engLoaded.load_file pathNew none).1.sf.map AudioSource.isOpen = some false :=
  ⟨rfl, rfl, rfl⟩

/-- C7: for every `t` (negative or beyond the duration), `seek_seconds t`
with a loaded source converts `t` to a frame index, clamps it to
`[0, frame_count]`, calls the source's seek with the clamped frame, and
clears `is_eof`. -/
theorem seek_seconds_clamps_and_clears_eof (e : AudioEngine) (s : AudioSource)
    (sr : ℕ) (t : ℚ) (hsf : e.sf = some s) (hsr : e.sf_sr = some sr) :
    (e.seek_seconds t).sf
      = some (s.seek (min (max 0 (ratTrunc (t * (sr : ℚ))))
          (s.frames.length : ℤ)).toNat)
    ∧ (e.seek_seconds t).eof = false
    ∧ (0 : ℤ) ≤ min (max 0 (ratTrunc (t * (sr : ℚ)))) (s.frames.length : ℤ)
    ∧ min (max 0 (ratTrunc (t * (sr : ℚ)))) (s.frames.length : ℤ)
        ≤ (s.frames.length : ℤ) := by
  simp only [AudioEngine.seek_seconds, hsf, hsr, Option.getD_some]
  refine ⟨trivial, trivial, le_min (le_max_left _ _) (Int.natCast_nonneg _),
    min_le_right _ _⟩

/-- C7 witness at a negative seek time on a concrete engine. -/
theorem seek_seconds_clamps_and_clears_eof_witness :
    engLoaded.sf = some srcOpen ∧ engLoaded.sf_sr = some 48000
    ∧ ((engLoaded.seek_seconds (-3)).sf
        = some (srcOpen.seek (min (max 0 (ratTrunc ((-3) * ((48000 : ℕ) : ℚ))))
            (srcOpen.frames.length : ℤ)).toNat)
      ∧ (engLoaded.seek_seconds (-3)).eof = false
      ∧ (0 : ℤ) ≤ min (max 0 (ratTrunc ((-3) * ((48000 : ℕ) : ℚ))))
          (srcOpen.frames.length : ℤ)
      ∧ min (max 0 (ratTrunc ((-3) * ((48000 : ℕ) : ℚ))))
          (srcOpen.frames.length : ℤ) ≤ (srcOpen.frames.length : ℤ)) :=
  ⟨rfl, rfl, seek_seconds_clamps_and_clears_eof engLoaded srcOpen 48000 (-3) rfl rfl⟩

/-- C3: immediately after a successful `load_file` or a `seek_seconds` with a
loaded source (and before any further callback write), the next `get_frame`
returns an all-zero samples array: both operations zero the ring buffer and
reset the write cursor to 0. -/
theorem get_frame_zero_after_load_or_seek (e : AudioEngine) (p : String)
    (src s0 : AudioSource) (t : ℚ)
    (hbs : 1 ≤ e.block_size)
    (hsz : e.ring.size = max (e.block_size * 16) 8192)
    (hsf : e.sf = some s0) :
    ((e.load_file p (some src)).1).get_frame_samples
        = List.replicate e.block_size 0
    ∧ (e.seek_seconds t).get_frame_samples = List.replicate e.block_size 0 := by
  have hbss : e.block_size < e.ring.size := by
    rw [hsz]; exact block_size_lt_cap _ hbs
  constructor
  · show Ring.read_last (Ring.reset e.ring.size) e.block_size = _
    exact Ring.read_last_reset _ _ hbs hbss
  · simp only [AudioEngine.seek_seconds, hsf]
    show Ring.read_last (Ring.reset e.ring.size) e.block_size = _
    exact Ring.read_last_reset _ _ hbs hbss

/-- C3 witness on a concrete loaded engine. -/
theorem get_frame_zero_after_load_or_seek_witness :
    1 ≤ engLoaded.block_size
    ∧ engLoaded.ring.size = max (engLoaded.block_size * 16) 8192
    ∧ engLoaded.sf = some srcOpen
    ∧ (((engLoaded.load_file pathNew (some srcOpen)).1).get_frame_samples
        = List.replicate engLoaded.block_size 0
      ∧ (engLoaded.seek_seconds 3).get_frame_samples
        = List.replicate engLoaded.block_size 0) :=
  ⟨by decide, by decide, rfl,
    get_frame_zero_after_load_or_seek engLoaded pathNew srcOpen srcOpen 3
      (by decide) (by decide) rfl⟩

/-- C2: with ring capacity `C = max(block_size * 16, 8192)` and any history
of callback pushes, the `get_frame` ring read returns exactly `block_size`
samples; and when fewer than `block_size` samples have ever been written it
is left-padded with zeros ahead of everything written so far. -/
theorem read_last_length_and_zero_pad (e : AudioEngine) (blocks : List (List ℚ))
    (hbs : 1 ≤ e.block_size) (hcap : e.block_size ≤ 2 ^ 30)
    (hring : e.ring = writeSeq (Ring.reset (max (e.block_size * 16) 8192)) blocks) :
    (e.get_frame_samples).length = e.block_size
    ∧ ((blocks.map List.length).sum < e.block_size →
        e.get_frame_samples
          = List.replicate (e.block_size - (blocks.map List.length).sum) 0
              ++ blocks.flatten) := by
  set s := max (e.block_size * 16) 8192 with hsdef
  have hs8 : 8192 ≤ s := le_max_right _ _
  have hs : 0 < s := by omega
  have hbss : e.block_size < s := block_size_lt_cap _ hbs
  have hsize := writeSeq_size (Ring.reset s) blocks
  have hdl := writeSeq_data_length (Ring.reset s) blocks hs
    (by simp [Ring.reset])
  constructor
  · rw [AudioEngine.get_frame_samples, hring]
    exact Ring.read_last_length _ _ hbs (by rw [hsize]; exact hbss)
      (by rw [hsize]; exact hdl)
  · intro hT
    set T := (blocks.map List.length).sum with hTdef
    have hT30 : T < 2 ^ 30 := by omega
    have hTs : T ≤ s := by omega
    have hinit : Ring.reset s
        = ⟨s, ([] : List ℚ) ++ List.replicate (s - ([] : List ℚ).length) 0,
             ([] : List ℚ).length⟩ := by
      simp [Ring.reset]
    have hw := writeSeq_no_wrap blocks s [] hs (by simpa using hTs)
      (by simpa using hT30)
    have hw' : writeSeq (Ring.reset s) blocks
        = ⟨s, blocks.flatten ++ List.replicate (s - T) 0, T⟩ := by
      rw [hinit, hw]; simp
    have hflat : blocks.flatten.length = T := by
      simp [List.length_flatten]
    rw [AudioEngine.get_frame_samples, hring, hw']
    rw [Ring.read_last_eq_span _ _ hbs (by exact hbss)
      (by simp only [List.length_append, List.length_replicate, hflat]; omega)]
    simp only [Ring.read_span]
    have hendPos : T % s = T := Nat.mod_eq_of_lt (by omega)
    rw [hendPos, emod_toNat_sub_of_gt hT hbss]
    rw [if_neg (by omega)]
    rw [show T + s - e.block_size = blocks.flatten.length + (s - e.block_size) by
      omega]
    rw [List.drop_append, List.drop_replicate, List.take_left' hflat]
    rw [show s - T - (s - e.block_size) = e.block_size - T by omega]

/-- C2 witness: block size 2, a single pushed sample 5, read returns
`[0, 5]`. -/
theorem read_last_length_and_zero_pad_witness :
    1 ≤ engRB.block_size ∧ engRB.block_size ≤ 2 ^ 30
    ∧ engRB.ring = writeSeq (Ring.reset (max (engRB.block_size * 16) 8192))
        [[(5 : ℚ)]]
    ∧ ((engRB.get_frame_samples).length = engRB.block_size
      ∧ (([[(5 : ℚ)]].map List.length).sum < engRB.block_size →
          engRB.get_frame_samples
            = List.replicate (engRB.block_size
                - (([[(5 : ℚ)]].map List.length).sum)) 0
                ++ [[(5 : ℚ)]].flatten)) :=
  ⟨by decide, by decide, rfl,
    read_last_length_and_zero_pad engRB [[(5 : ℚ)]] (by decide) (by decide) rfl⟩

/-- C4: while playing with a loaded source, if the source's read returns
zero frames the callback sets `is_eof`, transitions to paused
(`playing = false`), and fills the device output with silence for this
invocation; the model is a total function, so no exception escapes. -/
theorem callback_eof_pauses_and_silences (e : AudioEngine) (src : AudioSource)
    (frames ch : ℕ)
    (hsf : e.sf = some src) (hpl : e.playing = true)
    (hraw : (src.read (need_src e.stream_sr (e.sf_sr.getD e.stream_sr)
        frames)).1 = []) :
    (e.audioCallback frames ch).1.eof = true
    ∧ (e.audioCallback frames ch).1.playing = false
    ∧ (e.audioCallback frames ch).2
        = List.replicate frames (List.replicate ch 0) := by
  simp only [AudioEngine.audioCallback, hsf, hpl, hraw, if_pos, callbackFinish,
    applyVolume_silence]
  exact ⟨trivial, trivial, trivial⟩

/-- C4 witness: an exhausted concrete source; the callback pauses and zero
fills. -/
theorem callback_eof_pauses_and_silences_witness :
    engEof.sf = some srcDone ∧ engEof.playing = true
    ∧ (srcDone.read (need_src engEof.stream_sr
        (engEof.sf_sr.getD engEof.stream_sr) 2)).1 = []
    ∧ ((engEof.audioCallback 2 2).1.eof = true
      ∧ (engEof.audioCallback 2 2).1.playing = false
      ∧ (engEof.audioCallback 2 2).2
          = List.replicate 2 (List.replicate 2 0)) :=
  ⟨rfl, rfl, rfl,
    callback_eof_pauses_and_silences engEof srcDone 2 2 rfl rfl rfl⟩

/-- C6: when the stream sample rate equals the source sample rate, the
resampling stage of the callback is the identity on the channel-mapped
source samples, and the device output is exactly those samples padded or
trimmed to `frames` with only the volume scaling applied afterwards. -/
theorem resample_identity_when_rates_equal (e : AudioEngine) (src : AudioSource)
    (frames ch : ℕ)
    (hsf : e.sf = some src) (hpl : e.playing = true)
    (hsr : e.sf_sr = some e.stream_sr)
    (hraw : (src.read frames).1 ≠ []) :
    resampleStage e.stream_sr e.stream_sr frames ch
        (channelMap ch (src.read frames).1)
      = channelMap ch (src.read frames).1
    ∧ (e.audioCallback frames ch).2
      = applyVolume e.volume
          (padTrim frames ch (channelMap ch (src.read frames).1)) := by
  have hid : ∀ xs : List (List ℚ),
      resampleStage e.stream_sr e.stream_sr frames ch xs = xs := by
    intro xs
    simp [resampleStage]
  refine ⟨hid _, ?_⟩
  simp only [AudioEngine.audioCallback, hsf, hpl, hsr, Option.getD_some,
    need_src_self]
  rw [if_neg hraw]
  simp only [hid, callbackFinish]

/-- C6 witness on a concrete loaded engine with matching rates. -/
theorem resample_identity_when_rates_equal_witness :
    engLoaded.sf = some srcOpen ∧ engLoaded.playing = true
    ∧ engLoaded.sf_sr = some engLoaded.stream_sr
    ∧ (srcOpen.read 1).1 ≠ []
    ∧ (resampleStage engLoaded.stream_sr engLoaded.stream_sr 1 2
          (channelMap 2 (srcOpen.read 1).1)
        = channelMap 2 (srcOpen.read 1).1
      ∧ (engLoaded.audioCallback 1 2).2
        = applyVolume engLoaded.volume
            (padTrim 1 2 (channelMap 2 (srcOpen.read 1).1))) :=
  ⟨rfl, rfl, rfl, by decide,
    resample_identity_when_rates_equal engLoaded srcOpen 1 2 rfl rfl rfl
      (by decide)⟩

/-! ## Analyzer lemmas -/

theorem zipWith_maxsub_sum_nonneg (l1 l2 : List ℝ) :
    0 ≤ (List.zipWith (fun m p => max 0 (m - p)) l1 l2).sum := by
  induction l1 generalizing l2 with
  | nil => simp
  | cons a l ih =>
    cases l2 with
    | nil => simp
    | cons b l2 =>
      simp only [List.zipWith_cons_cons, List.sum_cons]
      exact add_nonneg (le_max_left _ _) (ih l2)

theorem smooth_step_nonneg (al s f : ℝ) (ha : al = 9 / 10) (hs : 0 ≤ s)
    (hf : 0 ≤ f) : 0 ≤ al * s + (1 - al) * f := by
  rw [ha]
  nlinarith

theorem compute_alpha (a : Analyzer) (x : List ℝ) :
    (Analyzer.compute a x).1.alpha = a.alpha := rfl

theorem compute_flux_smooth_nonneg (a : Analyzer) (x : List ℝ)
    (ha : a.alpha = 9 / 10) (h : 0 ≤ a.flux_smooth) :
    0 ≤ (Analyzer.compute a x).1.flux_smooth := by
  refine smooth_step_nonneg _ _ _ ha h ?_
  exact div_nonneg (zipWith_maxsub_sum_nonneg _ _) (Nat.cast_nonneg _)

theorem runCompute_inv (blocks : List (List ℝ)) (a : Analyzer)
    (ha : a.alpha = 9 / 10) (h : 0 ≤ a.flux_smooth) :
    (runCompute a blocks).alpha = 9 / 10
    ∧ 0 ≤ (runCompute a blocks).flux_smooth := by
  induction blocks generalizing a with
  | nil => exact ⟨ha, h⟩
  | cons x bs ih =>
    rw [show runCompute a (x :: bs)
      = runCompute (Analyzer.compute a x).1 bs from rfl]
    exact ih _ (by rw [compute_alpha]; exact ha)
      (compute_flux_smooth_nonneg a x ha h)

theorem getD_zipWith_mul_replicate_zero (j : ℕ) (l : List ℝ) (k : ℕ) :
    (List.zipWith (· * ·) (List.replicate j (0 : ℝ)) l).getD k 0 = 0 := by
  induction j generalizing l k with
  | zero => simp
  | succ j ih =>
    cases l with
    | nil => simp
    | cons b l =>
      cases k with
      | zero => simp
      | succ k =>
        rw [List.replicate_succ, List.zipWith_cons_cons, List.getD_cons_succ]
        exact ih l k

theorem dftCoef_zero (l : List ℝ) (hl : ∀ k, l.getD k 0 = 0) (N j : ℕ) :
    dftCoef l N j = 0 := by
  unfold dftCoef
  apply List.sum_eq_zero
  intro z hz
  simp only [List.mem_map] at hz
  obtain ⟨k, hk, rfl⟩ := hz
  rw [hl k]
  simp

theorem slideBuffer_zero (N hop m : ℕ) (hhop : hop ≤ N) :
    slideBuffer hop (List.replicate N (0 : ℝ)) (List.replicate m 0)
      = List.replicate N 0 := by
  unfold slideBuffer
  rw [List.length_replicate]
  split
  case isTrue h =>
    rw [List.drop_replicate, List.drop_replicate, ← List.replicate_add]
    congr 1
    omega
  case isFalse h =>
    rw [List.drop_replicate, ← List.replicate_add]
    congr 1
    omega

theorem rfftMag_zero_input (N : ℕ) (w : List ℝ) (hw : ∀ k, w.getD k 0 = 0) :
    rfftMag w N = List.replicate (N / 2 + 1) 0 := by
  have hlen : (rfftMag w N).length = N / 2 + 1 := by
    simp [rfftMag]
  rw [← hlen]
  apply List.eq_replicate_length.mpr
  intro b hb
  simp only [rfftMag, List.mem_map, List.mem_range] at hb
  obtain ⟨j, hj, rfl⟩ := hb
  rw [dftCoef_zero _ hw N j]
  exact map_zero Complex.abs

/-! ## Analyzer claim theorems -/

/-- C5: across any sequence of `Analyzer.compute` calls on (nonempty) input
blocks from a fresh analyzer, the returned (exponentially smoothed) flux is
always non-negative: the per-frame flux `sum(max(0, mag - prev))/len(mag)`
is non-negative and `0.9 * s + 0.1 * flux` preserves non-negativity from the
initial 0. -/
theorem flux_always_nonneg (sr N : ℕ) (blocks : List (List ℝ)) (x : List ℝ)
    (hblocks : ∀ b ∈ blocks, b.length ≠ 0) (hx : x.length ≠ 0) :
    0 ≤ (Analyzer.compute (runCompute (Analyzer.init sr N) blocks) x).2.2 := by
  have hinv := runCompute_inv blocks (Analyzer.init sr N) rfl le_rfl
  have h : (Analyzer.compute (runCompute (Analyzer.init sr N) blocks) x).2.2
      = (Analyzer.compute (runCompute (Analyzer.init sr N) blocks) x).1.flux_smooth :=
    rfl
  rw [h]
  exact compute_flux_smooth_nonneg _ x hinv.1 hinv.2

/-- C5 witness on a concrete one-block history. -/
theorem flux_always_nonneg_witness :
    (∀ b ∈ [[(1 : ℝ)]], b.length ≠ 0) ∧ ([(2 : ℝ)].length ≠ 0)
    ∧ 0 ≤ (Analyzer.compute (runCompute (Analyzer.init 48000 4) [[(1 : ℝ)]])
        [(2 : ℝ)]).2.2 :=
  ⟨by decide, by decide,
    flux_always_nonneg 48000 4 [[(1 : ℝ)]] [(2 : ℝ)] (by decide) (by decide)⟩

/-- C8: `Analyzer.compute` on an all-zero (nonempty) input block, from the
freshly constructed analyzer state, returns flux exactly 0 and a spectrum
all of whose entries are non-negative. -/
theorem compute_zero_block_flux_zero_spec_nonneg (sr N m : ℕ) (hm : 1 ≤ m) :
    (Analyzer.compute (Analyzer.init sr N) (List.replicate m 0)).2.2 = 0
    ∧ ∀ v ∈ (Analyzer.compute (Analyzer.init sr N) (List.replicate m 0)).2.1,
        0 ≤ v := by
  have hbuf : slideBuffer (N / 2) (List.replicate N (0 : ℝ))
      (List.replicate m 0) = List.replicate N 0 :=
    slideBuffer_zero N (N / 2) m (by omega)
  have hmag : rfftMag (List.zipWith (· * ·) (List.replicate N (0 : ℝ))
      (hannWindow N)) N = List.replicate (N / 2 + 1) 0 :=
    rfftMag_zero_input N _ (getD_zipWith_mul_replicate_zero N (hannWindow N))
  have hdiff : List.zipWith (fun m p => max 0 (m - p))
      (List.replicate (N / 2 + 1) (0 : ℝ)) (List.replicate (N / 2 + 1) (0 : ℝ))
      = List.replicate (N / 2 + 1) 0 := by
    simp
  simp only [Analyzer.compute, Analyzer.init, hbuf, hmag, hdiff]
  constructor
  · simp [List.sum_replicate]
  · intro v hv
    simp only [List.map_replicate, add_zero, Real.log_one] at hv
    rw [List.eq_of_mem_replicate hv]

/-- C8 witness on a concrete zero block of length 2. -/
theorem compute_zero_block_flux_zero_spec_nonneg_witness :
    1 ≤ 2
    ∧ ((Analyzer.compute (Analyzer.init 48000 4) (List.replicate 2 0)).2.2 = 0
      ∧ ∀ v ∈ (Analyzer.compute (Analyzer.init 48000 4)
          (List.replicate 2 0)).2.1, 0 ≤ v) :=
  ⟨by decide, compute_zero_block_flux_zero_spec_nonneg 48000 4 2 (by decide)⟩

/-- C10: when `Analyzer.compute` receives a block strictly longer than the
hop, only the last `hop` samples of the block are appended to the analysis
buffer; the earlier samples of the block are discarded and can never
influence any returned spectrum, flux, or future state. -/
theorem compute_uses_only_last_hop (a : Analyzer) (x y : List ℝ) (m : ℕ)
    (hx : x.length = m) (hy : y.length = m) (hm : a.hop < m)
    (hxy : x.drop (m - a.hop) = y.drop (m - a.hop)) :
    (Analyzer.compute a x).1.buffer
      = a.buffer.drop a.hop ++ x.drop (m - a.hop)
    ∧ Analyzer.compute a x = Analyzer.compute a y := by
  have hbx : slideBuffer a.hop a.buffer x
      = a.buffer.drop a.hop ++ x.drop (m - a.hop) := by
    unfold slideBuffer
    rw [hx, if_pos (le_of_lt hm)]
  have hby : slideBuffer a.hop a.buffer y
      = a.buffer.drop a.hop ++ y.drop (m - a.hop) := by
    unfold slideBuffer
    rw [hy, if_pos (le_of_lt hm)]
  constructor
  · exact hbx
  · simp only [Analyzer.compute, hbx, hby, hxy]

/-- C10 witness: two length-2 blocks agreeing on their last (hop = 1)
sample give identical compute results on a small fresh analyzer. -/
theorem compute_uses_only_last_hop_witness :
    ([(1 : ℝ), 2].length = 2) ∧ ([(3 : ℝ), 2].length = 2)
    ∧ (Analyzer.init 48000 2).hop < 2
    ∧ [(1 : ℝ), 2].drop (2 - (Analyzer.init 48000 2).hop)
        = [(3 : ℝ), 2].drop (2 - (Analyzer.init 48000 2).hop)
    ∧ ((Analyzer.compute (Analyzer.init 48000 2) [(1 : ℝ), 2]).1.buffer
        = (Analyzer.init 48000 2).buffer.drop (Analyzer.init 48000 2).hop
          ++ [(1 : ℝ), 2].drop (2 - (Analyzer.init 48000 2).hop)
      ∧ Analyzer.compute (Analyzer.init 48000 2) [(1 : ℝ), 2]
        = Analyzer.compute (Analyzer.init 48000 2) [(3 : ℝ), 2]) :=
  ⟨rfl, rfl, by decide, rfl,
    compute_uses_only_last_hop (Analyzer.init 48000 2) [(1 : ℝ), 2]
      [(3 : ℝ), 2] 2 rfl rfl (by decide) rfl⟩

end Aurora
